import Mathlib

/-!
Shallow embedding of the resilience runtime of the repository:
circuit breaker, fixed-window rate limiter, in-memory TTL cache,
account lockout tracker and graceful-shutdown handler loop.
Times are modelled as natural-number milliseconds (`Date.now()` is an
explicit `now` argument), and asynchronous operations are modelled by
passing their (raced) outcome as an input.
-/

namespace Game

/-! ### Circuit breaker (`CircuitBreaker` class) -/

inductive CircuitState where
  | CLOSED
  | OPEN
  | HALF_OPEN
deriving DecidableEq

structure CircuitBreakerConfig where
  failureThreshold : Nat
  resetTimeout : Nat
  successThreshold : Nat
  requestTimeout : Nat
deriving DecidableEq

/-- Models `config.x || default` in the constructor: `undefined` (`none`)
or `0` falls back to the default value. -/
def orDefault (o : Option Nat) (d : Nat) : Nat :=
  match o with
  | some n => if n = 0 then d else n
  | none => d

/-- Constructor defaulting of `CircuitBreaker`'s configuration. -/
def mkConfig (ft rt st rqt : Option Nat) : CircuitBreakerConfig :=
  { failureThreshold := orDefault ft 5
    resetTimeout := orDefault rt 60000
    successThreshold := orDefault st 2
    requestTimeout := orDefault rqt 30000 }

structure CircuitBreaker where
  state : CircuitState
  failureCount : Nat
  successCount : Nat
  lastFailureTime : Option Nat
  lastSuccessTime : Option Nat
  nextAttemptTime : Option Nat
  totalRequests : Nat
  totalFailures : Nat
  totalSuccesses : Nat
  config : CircuitBreakerConfig
deriving DecidableEq

/-- Initial breaker state as set up by the constructor. -/
def mkCircuitBreaker (cfg : CircuitBreakerConfig) : CircuitBreaker :=
  { state := .CLOSED
    failureCount := 0
    successCount := 0
    lastFailureTime := none
    lastSuccessTime := none
    nextAttemptTime := none
    totalRequests := 0
    totalFailures := 0
    totalSuccesses := 0
    config := cfg }

/-- Outcome of the `Promise.race` of the wrapped operation against the
request timeout: a timeout rejects and is counted as a failure. -/
inductive ExecOutcome where
  | opSuccess
  | opFailure
deriving DecidableEq

/-- Result seen by the caller of `execute`. -/
inductive ExecResult where
  | rejectedOpen
  | succeeded
  | failed
deriving DecidableEq

def transitionToOpen (cb : CircuitBreaker) (now : Nat) : CircuitBreaker :=
  { cb with
    state := .OPEN
    nextAttemptTime := some (now + cb.config.resetTimeout)
    successCount := 0 }

def transitionToClosed (cb : CircuitBreaker) : CircuitBreaker :=
  { cb with
    state := .CLOSED
    failureCount := 0
    successCount := 0
    nextAttemptTime := none }

def transitionToHalfOpen (cb : CircuitBreaker) : CircuitBreaker :=
  { cb with
    state := .HALF_OPEN
    successCount := 0 }

def onSuccess (cb : CircuitBreaker) (now : Nat) : CircuitBreaker :=
  let cb1 :=
    { cb with
      failureCount := 0
      successCount := cb.successCount + 1
      lastSuccessTime := some now
      totalSuccesses := cb.totalSuccesses + 1 }
  if cb1.state = .HALF_OPEN ∧ cb1.successCount ≥ cb1.config.successThreshold then
    transitionToClosed cb1
  else
    cb1

def onFailure (cb : CircuitBreaker) (now : Nat) : CircuitBreaker :=
  let cb1 :=
    { cb with
      failureCount := cb.failureCount + 1
      lastFailureTime := some now
      totalFailures := cb.totalFailures + 1 }
  if cb1.state = .CLOSED then
    if cb1.failureCount ≥ cb1.config.failureThreshold then
      transitionToOpen cb1 now
    else
      cb1
  else if cb1.state = .HALF_OPEN then
    transitionToOpen cb1 now
  else
    cb1

/-- One call to `CircuitBreaker.execute`, at time `now`, where `outcome` is
the result of racing the wrapped operation against the request timeout.
A fast-fail rejection returns before the operation (and the stats update)
is reached, so the breaker is returned unchanged. -/
def execute (cb : CircuitBreaker) (now : Nat) (outcome : ExecOutcome) :
    ExecResult × CircuitBreaker :=
  if cb.state = .OPEN ∧ now < (cb.nextAttemptTime.getD 0) then
    (.rejectedOpen, cb)
  else
    let cb1 := if cb.state = .OPEN then transitionToHalfOpen cb else cb
    let cb2 := { cb1 with totalRequests := cb1.totalRequests + 1 }
    match outcome with
    | .opSuccess => (.succeeded, onSuccess cb2 now)
    | .opFailure => (.failed, onFailure cb2 now)

/-- Folding a sequence of calls (time, raced outcome) through the breaker. -/
def executeSeq (cb : CircuitBreaker) (calls : List (Nat × ExecOutcome)) :
    CircuitBreaker :=
  calls.foldl (fun b c => (execute b c.1 c.2).2) cb

/-- A list of failing calls at the given times. -/
def failCalls (ts : List Nat) : List (Nat × ExecOutcome) :=
  ts.map (fun t => (t, ExecOutcome.opFailure))

/-- A list of succeeding calls at the given times. -/
def succCalls (ts : List Nat) : List (Nat × ExecOutcome) :=
  ts.map (fun t => (t, ExecOutcome.opSuccess))

lemma execute_fail_closed_below (cb : CircuitBreaker) (t : Nat)
    (hs : cb.state = .CLOSED)
    (hlt : cb.failureCount + 1 < cb.config.failureThreshold) :
    (execute cb t .opFailure).2.state = .CLOSED ∧
    (execute cb t .opFailure).2.failureCount = cb.failureCount + 1 ∧
    (execute cb t .opFailure).2.config = cb.config := by
  have hx : ¬(cb.config.failureThreshold ≤ cb.failureCount + 1) := by omega
  simp [execute, onFailure, hs, hx]

lemma execute_fail_closed_opens (cb : CircuitBreaker) (t : Nat)
    (hs : cb.state = .CLOSED)
    (hge : cb.config.failureThreshold ≤ cb.failureCount + 1) :
    (execute cb t .opFailure).2.state = .OPEN ∧
    (execute cb t .opFailure).2.nextAttemptTime = some (t + cb.config.resetTimeout) ∧
    (execute cb t .opFailure).2.successCount = 0 ∧
    (execute cb t .opFailure).2.failureCount = cb.failureCount + 1 := by
  simp [execute, onFailure, transitionToOpen, hs, hge]

lemma executeSeq_fail_closed (ts : List Nat) :
    ∀ cb : CircuitBreaker, cb.state = .CLOSED →
      cb.failureCount + ts.length < cb.config.failureThreshold →
      (executeSeq cb (failCalls ts)).state = .CLOSED ∧
      (executeSeq cb (failCalls ts)).failureCount = cb.failureCount + ts.length ∧
      (executeSeq cb (failCalls ts)).config = cb.config := by
  induction ts with
  | nil =>
    intro cb h1 _
    simp [executeSeq, failCalls, h1]
  | cons t ts ih =>
    intro cb h1 h2
    simp only [List.length_cons] at h2
    obtain ⟨s1, s2, s3⟩ := execute_fail_closed_below cb t h1 (by omega)
    have hrw : executeSeq cb (failCalls (t :: ts)) =
        executeSeq (execute cb t .opFailure).2 (failCalls ts) := by
      simp [failCalls, executeSeq]
    rw [hrw]
    obtain ⟨r1, r2, r3⟩ := ih (execute cb t .opFailure).2 s1 (by rw [s2, s3]; omega)
    refine ⟨r1, ?_, by rw [r3, s3]⟩
    rw [r2, s2]
    simp only [List.length_cons]
    omega

lemma executeSeq_fail_opens (ts : List Nat) (t : Nat) (cb : CircuitBreaker)
    (h1 : cb.state = .CLOSED)
    (h2 : cb.failureCount + ts.length + 1 = cb.config.failureThreshold) :
    (executeSeq cb (failCalls (ts ++ [t]))).state = .OPEN ∧
    (executeSeq cb (failCalls (ts ++ [t]))).nextAttemptTime =
      some (t + cb.config.resetTimeout) ∧
    (executeSeq cb (failCalls (ts ++ [t]))).successCount = 0 ∧
    (executeSeq cb (failCalls (ts ++ [t]))).failureCount =
      cb.config.failureThreshold := by
  obtain ⟨s1, s2, s3⟩ := executeSeq_fail_closed ts cb h1 (by omega)
  have hrw : executeSeq cb (failCalls (ts ++ [t])) =
      (execute (executeSeq cb (failCalls ts)) t .opFailure).2 := by
    simp [failCalls, executeSeq, List.foldl_append]
  obtain ⟨r1, r2, r3, r4⟩ :=
    execute_fail_closed_opens (executeSeq cb (failCalls ts)) t s1 (by rw [s2, s3]; omega)
  rw [hrw]
  refine ⟨r1, ?_, r3, ?_⟩
  · rw [r2, s3]
  · rw [r4, s2]; omega

lemma execute_success_resets (cb : CircuitBreaker) (now : Nat)
    (h : (execute cb now .opSuccess).1 ≠ .rejectedOpen) :
    (execute cb now .opSuccess).2.failureCount = 0 := by
  by_cases hc : cb.state = .OPEN ∧ now < cb.nextAttemptTime.getD 0
  · simp [execute, hc] at h
  · simp only [execute, if_neg hc]
    split <;> · simp only [onSuccess, transitionToClosed, transitionToHalfOpen]
                split <;> simp

lemma execute_open_fastfail (cb : CircuitBreaker) (now : Nat) (o : ExecOutcome)
    (h1 : cb.state = .OPEN) (h2 : now < cb.nextAttemptTime.getD 0) :
    execute cb now o = (.rejectedOpen, cb) := by
  simp [execute, h1, h2]

lemma execute_open_after (cb : CircuitBreaker) (now ta : Nat) (o : ExecOutcome)
    (h1 : cb.state = .OPEN) (h2 : cb.nextAttemptTime = some ta) (h3 : ta ≤ now) :
    execute cb now o = execute (transitionToHalfOpen cb) now o ∧
    (execute cb now o).1 ≠ .rejectedOpen := by
  have hno : ¬(cb.state = CircuitState.OPEN ∧ now < cb.nextAttemptTime.getD 0) := by
    rw [h2]; simp; omega
  have hho : ¬((transitionToHalfOpen cb).state = CircuitState.OPEN ∧
      now < (transitionToHalfOpen cb).nextAttemptTime.getD 0) := by
    simp [transitionToHalfOpen]
  have hhs : ¬((transitionToHalfOpen cb).state = CircuitState.OPEN) := by
    simp [transitionToHalfOpen]
  constructor
  · simp only [execute, if_neg hno, if_neg hho, if_pos h1, if_neg hhs]
  · simp only [execute, if_neg hno]
    cases o <;> simp

lemma execute_succ_halfopen_below (cb : CircuitBreaker) (t : Nat)
    (hs : cb.state = .HALF_OPEN)
    (hlt : cb.successCount + 1 < cb.config.successThreshold) :
    (execute cb t .opSuccess).2.state = .HALF_OPEN ∧
    (execute cb t .opSuccess).2.successCount = cb.successCount + 1 ∧
    (execute cb t .opSuccess).2.config = cb.config := by
  have hx : ¬(cb.config.successThreshold ≤ cb.successCount + 1) := by omega
  simp [execute, onSuccess, hs, hx]

lemma execute_succ_halfopen_closes (cb : CircuitBreaker) (t : Nat)
    (hs : cb.state = .HALF_OPEN)
    (hge : cb.config.successThreshold ≤ cb.successCount + 1) :
    (execute cb t .opSuccess).2.state = .CLOSED ∧
    (execute cb t .opSuccess).2.failureCount = 0 ∧
    (execute cb t .opSuccess).2.successCount = 0 := by
  simp [execute, onSuccess, transitionToClosed, hs, hge]

lemma executeSeq_succ_halfopen (ts : List Nat) :
    ∀ cb : CircuitBreaker, cb.state = .HALF_OPEN →
      cb.successCount + ts.length < cb.config.successThreshold →
      (executeSeq cb (succCalls ts)).state = .HALF_OPEN ∧
      (executeSeq cb (succCalls ts)).successCount = cb.successCount + ts.length ∧
      (executeSeq cb (succCalls ts)).config = cb.config := by
  induction ts with
  | nil =>
    intro cb h1 _
    simp [executeSeq, succCalls, h1]
  | cons t ts ih =>
    intro cb h1 h2
    simp only [List.length_cons] at h2
    obtain ⟨s1, s2, s3⟩ := execute_succ_halfopen_below cb t h1 (by omega)
    have hrw : executeSeq cb (succCalls (t :: ts)) =
        executeSeq (execute cb t .opSuccess).2 (succCalls ts) := by
      simp [succCalls, executeSeq]
    rw [hrw]
    obtain ⟨r1, r2, r3⟩ := ih (execute cb t .opSuccess).2 s1 (by rw [s2, s3]; omega)
    refine ⟨r1, ?_, by rw [r3, s3]⟩
    rw [r2, s2]
    simp only [List.length_cons]
    omega

lemma executeSeq_succ_closes (ts : List Nat) (t : Nat) (cb : CircuitBreaker)
    (h1 : cb.state = .HALF_OPEN)
    (h2 : cb.successCount + ts.length + 1 = cb.config.successThreshold) :
    (executeSeq cb (succCalls (ts ++ [t]))).state = .CLOSED ∧
    (executeSeq cb (succCalls (ts ++ [t]))).failureCount = 0 ∧
    (executeSeq cb (succCalls (ts ++ [t]))).successCount = 0 := by
  obtain ⟨s1, s2, s3⟩ := executeSeq_succ_halfopen ts cb h1 (by omega)
  have hrw : executeSeq cb (succCalls (ts ++ [t])) =
      (execute (executeSeq cb (succCalls ts)) t .opSuccess).2 := by
    simp [succCalls, executeSeq, List.foldl_append]
  rw [hrw]
  exact execute_succ_halfopen_closes (executeSeq cb (succCalls ts)) t s1
    (by rw [s2, s3]; omega)

lemma execute_fail_halfopen_reopens (cb : CircuitBreaker) (now : Nat)
    (hs : cb.state = .HALF_OPEN) :
    (execute cb now .opFailure).2.state = .OPEN ∧
    (execute cb now .opFailure).2.nextAttemptTime =
      some (now + cb.config.resetTimeout) := by
  simp [execute, onFailure, transitionToOpen, hs]

lemma onSuccess_totals (cb : CircuitBreaker) (now : Nat) :
    (onSuccess cb now).totalSuccesses = cb.totalSuccesses + 1 ∧
    (onSuccess cb now).totalFailures = cb.totalFailures ∧
    (onSuccess cb now).totalRequests = cb.totalRequests := by
  simp only [onSuccess, transitionToClosed]
  split <;> simp

lemma onFailure_totals (cb : CircuitBreaker) (now : Nat) :
    (onFailure cb now).totalFailures = cb.totalFailures + 1 ∧
    (onFailure cb now).totalSuccesses = cb.totalSuccesses ∧
    (onFailure cb now).totalRequests = cb.totalRequests := by
  simp only [onFailure, transitionToOpen]
  split
  · split <;> simp
  · split <;> simp

/-- C1: full circuit-breaker lifecycle. From a fresh breaker, fewer than
`failureThreshold` failures keep it `CLOSED` and count them; the
`failureThreshold`-th consecutive failure opens it with
`nextAttemptTime = now + resetTimeout` and `successCount = 0`; any
executed success resets `failureCount` to 0; while `OPEN` and before
`nextAttemptTime` every call is rejected with the breaker-open error and
the breaker (hence the operation) is untouched; a call at or after
`nextAttemptTime` behaves exactly as a call on the breaker transitioned
to `HALF_OPEN` and is not rejected; `successThreshold` consecutive
successes in `HALF_OPEN` close it with both counters reset; a single
failure in `HALF_OPEN` reopens it with a fresh `nextAttemptTime`. -/
theorem circuitBreaker_lifecycle (cfg : CircuitBreakerConfig)
    (hf : 0 < cfg.failureThreshold) (hs : 0 < cfg.successThreshold) :
    (∀ ts : List Nat, ts.length < cfg.failureThreshold →
      (executeSeq (mkCircuitBreaker cfg) (failCalls ts)).state = .CLOSED ∧
      (executeSeq (mkCircuitBreaker cfg) (failCalls ts)).failureCount = ts.length) ∧
    (∀ (ts : List Nat) (t : Nat), ts.length + 1 = cfg.failureThreshold →
      (executeSeq (mkCircuitBreaker cfg) (failCalls (ts ++ [t]))).state = .OPEN ∧
      (executeSeq (mkCircuitBreaker cfg) (failCalls (ts ++ [t]))).nextAttemptTime =
        some (t + cfg.resetTimeout) ∧
      (executeSeq (mkCircuitBreaker cfg) (failCalls (ts ++ [t]))).successCount = 0) ∧
    (∀ (cb : CircuitBreaker) (now : Nat),
      (execute cb now .opSuccess).1 ≠ .rejectedOpen →
      (execute cb now .opSuccess).2.failureCount = 0) ∧
    (∀ (cb : CircuitBreaker) (now : Nat) (o : ExecOutcome),
      cb.state = .OPEN → now < cb.nextAttemptTime.getD 0 →
      execute cb now o = (.rejectedOpen, cb)) ∧
    (∀ (cb : CircuitBreaker) (now ta : Nat) (o : ExecOutcome),
      cb.state = .OPEN → cb.nextAttemptTime = some ta → ta ≤ now →
      (transitionToHalfOpen cb).state = .HALF_OPEN ∧
      execute cb now o = execute (transitionToHalfOpen cb) now o ∧
      (execute cb now o).1 ≠ .rejectedOpen) ∧
    (∀ (cb : CircuitBreaker) (ts : List Nat) (t : Nat),
      cb.state = .HALF_OPEN → cb.config = cfg → cb.successCount = 0 →
      ts.length + 1 = cfg.successThreshold →
      (executeSeq cb (succCalls (ts ++ [t]))).state = .CLOSED ∧
      (executeSeq cb (succCalls (ts ++ [t]))).failureCount = 0 ∧
      (executeSeq cb (succCalls (ts ++ [t]))).successCount = 0) ∧
    (∀ (cb : CircuitBreaker) (now : Nat), cb.state = .HALF_OPEN → cb.config = cfg →
      (execute cb now .opFailure).2.state = .OPEN ∧
      (execute cb now .opFailure).2.nextAttemptTime = some (now + cfg.resetTimeout)) := by
  refine ⟨?_, ?_, ?_, ?_, ?_, ?_, ?_⟩
  · intro ts hlen
    obtain ⟨h1, h2, -⟩ := executeSeq_fail_closed ts (mkCircuitBreaker cfg) rfl
      (by simpa [mkCircuitBreaker] using hlen)
    exact ⟨h1, by simpa [mkCircuitBreaker] using h2⟩
  · intro ts t hlen
    obtain ⟨h1, h2, h3, -⟩ := executeSeq_fail_opens ts t (mkCircuitBreaker cfg) rfl
      (by simpa [mkCircuitBreaker] using hlen)
    exact ⟨h1, by simpa [mkCircuitBreaker] using h2, h3⟩
  · exact execute_success_resets
  · exact fun cb now o h1 h2 => execute_open_fastfail cb now o h1 h2
  · intro cb now ta o h1 h2 h3
    obtain ⟨e1, e2⟩ := execute_open_after cb now ta o h1 h2 h3
    exact ⟨by simp [transitionToHalfOpen], e1, e2⟩
  · intro cb ts t h1 hcfg h0 hlen
    exact executeSeq_succ_closes ts t cb h1 (by rw [h0, hcfg]; omega)
  · intro cb now h1 hcfg
    have h := execute_fail_halfopen_reopens cb now h1
    rw [hcfg] at h
    exact h

theorem circuitBreaker_lifecycle_witness :
    0 < (CircuitBreakerConfig.mk 2 1000 2 30000).failureThreshold ∧
    ((executeSeq (mkCircuitBreaker (CircuitBreakerConfig.mk 2 1000 2 30000))
        (failCalls ([5] ++ [7]))).state = .OPEN ∧
      (executeSeq (mkCircuitBreaker (CircuitBreakerConfig.mk 2 1000 2 30000))
        (failCalls ([5] ++ [7]))).nextAttemptTime =
        some (7 + (CircuitBreakerConfig.mk 2 1000 2 30000).resetTimeout) ∧
      (executeSeq (mkCircuitBreaker (CircuitBreakerConfig.mk 2 1000 2 30000))
        (failCalls ([5] ++ [7]))).successCount = 0) :=
  ⟨by decide,
    (circuitBreaker_lifecycle (CircuitBreakerConfig.mk 2 1000 2 30000)
      (by decide) (by decide)).2.1 [5] 7 (by decide)⟩

/-- C8 (amended): a call to `execute` that is not rejected with the
breaker-open error increments `totalRequests` by exactly one and
increments `totalSuccesses` or `totalFailures` according to the outcome;
a call rejected while `OPEN` before `nextAttemptTime` leaves the whole
breaker, including all cumulative statistics, unchanged. -/
theorem circuitBreaker_stats_update (cb : CircuitBreaker) (now : Nat) (o : ExecOutcome) :
    ((execute cb now o).1 = .rejectedOpen → (execute cb now o).2 = cb) ∧
    ((execute cb now o).1 ≠ .rejectedOpen →
      (execute cb now o).2.totalRequests = cb.totalRequests + 1 ∧
      (o = .opSuccess →
        (execute cb now o).2.totalSuccesses = cb.totalSuccesses + 1 ∧
        (execute cb now o).2.totalFailures = cb.totalFailures) ∧
      (o = .opFailure →
        (execute cb now o).2.totalFailures = cb.totalFailures + 1 ∧
        (execute cb now o).2.totalSuccesses = cb.totalSuccesses)) := by
  by_cases hc : cb.state = CircuitState.OPEN ∧ now < cb.nextAttemptTime.getD 0
  · refine ⟨fun _ => by simp [execute, hc], fun hne => absurd (by simp [execute, hc]) hne⟩
  · have h1 : (execute cb now o).1 ≠ ExecResult.rejectedOpen := by
      cases o <;> simp [execute, hc]
    refine ⟨fun hr => absurd hr h1, fun _ => ?_⟩
    cases o
    · obtain ⟨a1, a2, a3⟩ := onSuccess_totals
        { (if cb.state = CircuitState.OPEN then transitionToHalfOpen cb else cb) with
          totalRequests :=
            (if cb.state = CircuitState.OPEN then transitionToHalfOpen cb else cb).totalRequests + 1 }
        now
      refine ⟨?_, ⟨fun _ => ⟨?_, ?_⟩, fun h => ExecOutcome.noConfusion h⟩⟩ <;>
        simp only [execute, if_neg hc, a1, a2, a3] <;>
        split <;> simp [transitionToHalfOpen]
    · obtain ⟨a1, a2, a3⟩ := onFailure_totals
        { (if cb.state = CircuitState.OPEN then transitionToHalfOpen cb else cb) with
          totalRequests :=
            (if cb.state = CircuitState.OPEN then transitionToHalfOpen cb else cb).totalRequests + 1 }
        now
      refine ⟨?_, ⟨fun h => ExecOutcome.noConfusion h, fun _ => ⟨?_, ?_⟩⟩⟩ <;>
        simp only [execute, if_neg hc, a1, a2, a3] <;>
        split <;> simp [transitionToHalfOpen]

theorem circuitBreaker_stats_update_witness :
    ((execute (mkCircuitBreaker (CircuitBreakerConfig.mk 2 1000 2 30000)) 0 .opSuccess).1 ≠
      .rejectedOpen) ∧
    (execute (mkCircuitBreaker (CircuitBreakerConfig.mk 2 1000 2 30000)) 0 .opSuccess).2.totalRequests =
      (mkCircuitBreaker (CircuitBreakerConfig.mk 2 1000 2 30000)).totalRequests + 1 :=
  ⟨by decide,
    ((circuitBreaker_stats_update (mkCircuitBreaker (CircuitBreakerConfig.mk 2 1000 2 30000))
      0 .opSuccess).2 (by decide)).1⟩

/-- C8 counterexample: a breaker opened by two failures (threshold 2) and
called again before `nextAttemptTime` is rejected and does not increment
`totalRequests`, refuting the claim that every call to `execute`
increments `totalRequests` by exactly one. -/
theorem circuitBreaker_stats_rejected_cex :
    (execute (executeSeq (mkCircuitBreaker (CircuitBreakerConfig.mk 2 1000 2 30000))
        (failCalls [5, 7])) 500 .opSuccess).1 = .rejectedOpen ∧
    ¬((execute (executeSeq (mkCircuitBreaker (CircuitBreakerConfig.mk 2 1000 2 30000))
        (failCalls [5, 7])) 500 .opSuccess).2.totalRequests =
      (executeSeq (mkCircuitBreaker (CircuitBreakerConfig.mk 2 1000 2 30000))
        (failCalls [5, 7])).totalRequests + 1) := by
  decide

/-! ### Fixed-window rate limiter (`RateLimiter` class) -/

structure RateLimitEntry where
  count : Nat
  resetTime : Nat
deriving DecidableEq

structure CheckResult where
  success : Bool
  remaining : Int
  resetTime : Nat
deriving DecidableEq

/-- The limiter's per-instance store (`Map<string, RateLimitEntry>`). -/
def RLStore : Type := String → Option RateLimitEntry

def RLStore.update (store : RLStore) (ident : String) (e : RateLimitEntry) : RLStore :=
  fun k => if k = ident then some e else store k

/-- Empty store of a freshly constructed limiter. -/
def emptyRL : RLStore := fun _ => none

/-- `RateLimiter.check(identifier, maxRequests, windowMs)` at time `now`:
a missing or expired entry is replaced by a fresh `count = 1` entry and
the call succeeds with `remaining = maxRequests - 1`; otherwise the count
is incremented and the call succeeds iff the new count stays within
`maxRequests`. -/
def check (store : RLStore) (ident : String) (maxRequests windowMs now : Nat) :
    CheckResult × RLStore :=
  match store ident with
  | none =>
    let newEntry : RateLimitEntry := { count := 1, resetTime := now + windowMs }
    ({ success := true, remaining := (maxRequests : Int) - 1,
       resetTime := newEntry.resetTime },
      RLStore.update store ident newEntry)
  | some entry =>
    if entry.resetTime < now then
      let newEntry : RateLimitEntry := { count := 1, resetTime := now + windowMs }
      ({ success := true, remaining := (maxRequests : Int) - 1,
         resetTime := newEntry.resetTime },
        RLStore.update store ident newEntry)
    else
      let newCount := entry.count + 1
      ({ success := decide (newCount ≤ maxRequests),
         remaining := max 0 ((maxRequests : Int) - newCount),
         resetTime := entry.resetTime },
        RLStore.update store ident { count := newCount, resetTime := entry.resetTime })

/-- A sequence of `check` calls at the given times, collecting the results. -/
def checkRun (store : RLStore) (ident : String) (maxRequests windowMs : Nat) :
    List Nat → List CheckResult × RLStore
  | [] => ([], store)
  | t :: ts =>
    let r := check store ident maxRequests windowMs t
    let rest := checkRun r.2 ident maxRequests windowMs ts
    (r.1 :: rest.1, rest.2)

lemma check_update_self (store : RLStore) (ident : String) (e : RateLimitEntry) :
    RLStore.update store ident e ident = some e := by
  simp [RLStore.update]

lemma check_incr (store : RLStore) (ident : String) (maxRequests windowMs now : Nat)
    (e : RateLimitEntry) (h : store ident = some e) (h2 : ¬(e.resetTime < now)) :
    (check store ident maxRequests windowMs now).1 =
      { success := decide (e.count + 1 ≤ maxRequests),
        remaining := max 0 ((maxRequests : Int) - (e.count + 1)),
        resetTime := e.resetTime } ∧
    (check store ident maxRequests windowMs now).2 ident =
      some { count := e.count + 1, resetTime := e.resetTime } := by
  simp [check, h, h2, check_update_self]

lemma checkRun_filled (ident : String) (maxRequests windowMs R : Nat) :
    ∀ (ts : List Nat) (store : RLStore) (k : Nat),
      store ident = some { count := k, resetTime := R } →
      (∀ t ∈ ts, t ≤ R) →
      k + ts.length ≤ maxRequests →
      (∀ r ∈ (checkRun store ident maxRequests windowMs ts).1, r.success = true) ∧
      (checkRun store ident maxRequests windowMs ts).2 ident =
        some { count := k + ts.length, resetTime := R } := by
  intro ts
  induction ts with
  | nil =>
    intro store k h _ _
    simpa [checkRun] using h
  | cons t ts ih =>
    intro store k h hts hk
    have hle : t ≤ R := hts t (by simp)
    obtain ⟨r1, r2⟩ := check_incr store ident maxRequests windowMs t
      { count := k, resetTime := R } h (by simp; omega)
    simp only [List.length_cons] at hk
    obtain ⟨s1, s2⟩ := ih (check store ident maxRequests windowMs t).2 (k + 1) r2
      (fun x hx => hts x (by simp [hx])) (by omega)
    constructor
    · intro r hr
      simp only [checkRun, List.mem_cons] at hr
      rcases hr with hr | hr
      · rw [hr, r1]
        simp
        omega
      · exact s1 r hr
    · simp only [checkRun]
      rw [s2]
      congr 1
      simp
      omega

/-- C2: rate limiter single-call semantics and the window consequence.
A `check` with no entry (or an expired entry) for the identifier stores a
fresh entry `count = 1, resetTime = now + windowMs` and succeeds with
`remaining = maxRequests - 1`; otherwise it increments the stored count,
succeeds iff the new count is at most `maxRequests`, and returns
`remaining = max 0 (maxRequests - count)` with the unchanged `resetTime`.
Consequently, starting with no entry, `maxRequests` calls within one
window all succeed and the next call in the window fails with
`remaining = 0`. -/
theorem rateLimiter_check_spec (store : RLStore) (ident : String)
    (maxRequests windowMs now : Nat) :
    (store ident = none →
      (check store ident maxRequests windowMs now).1 =
        { success := true, remaining := (maxRequests : Int) - 1,
          resetTime := now + windowMs } ∧
      (check store ident maxRequests windowMs now).2 ident =
        some { count := 1, resetTime := now + windowMs }) ∧
    (∀ e : RateLimitEntry, store ident = some e → e.resetTime < now →
      (check store ident maxRequests windowMs now).1 =
        { success := true, remaining := (maxRequests : Int) - 1,
          resetTime := now + windowMs } ∧
      (check store ident maxRequests windowMs now).2 ident =
        some { count := 1, resetTime := now + windowMs }) ∧
    (∀ e : RateLimitEntry, store ident = some e → ¬(e.resetTime < now) →
      ((check store ident maxRequests windowMs now).1.success = true ↔
        e.count + 1 ≤ maxRequests) ∧
      (check store ident maxRequests windowMs now).1.remaining =
        max 0 ((maxRequests : Int) - (e.count + 1)) ∧
      (check store ident maxRequests windowMs now).1.resetTime = e.resetTime ∧
      (check store ident maxRequests windowMs now).2 ident =
        some { count := e.count + 1, resetTime := e.resetTime }) ∧
    (∀ (t0 : Nat) (ts : List Nat) (tf : Nat), store ident = none →
      ts.length + 1 = maxRequests →
      (∀ t ∈ ts, t ≤ t0 + windowMs) → tf ≤ t0 + windowMs →
      (∀ r ∈ (checkRun store ident maxRequests windowMs (t0 :: ts)).1,
        r.success = true) ∧
      (check (checkRun store ident maxRequests windowMs (t0 :: ts)).2 ident
        maxRequests windowMs tf).1.success = false ∧
      (check (checkRun store ident maxRequests windowMs (t0 :: ts)).2 ident
        maxRequests windowMs tf).1.remaining = 0) := by
  refine ⟨?_, ?_, ?_, ?_⟩
  · intro h
    simp [check, h, check_update_self]
  · intro e h h2
    simp [check, h, h2, check_update_self]
  · intro e h h2
    obtain ⟨r1, r2⟩ := check_incr store ident maxRequests windowMs now e h h2
    rw [r1, r2]
    simp
  · intro t0 ts tf h hlen hts htf
    have hfresh1 : (check store ident maxRequests windowMs t0).1 =
        { success := true, remaining := (maxRequests : Int) - 1,
          resetTime := t0 + windowMs } := by
      simp [check, h]
    have hfresh2 : (check store ident maxRequests windowMs t0).2 ident =
        some { count := 1, resetTime := t0 + windowMs } := by
      simp [check, h, check_update_self]
    obtain ⟨s1, s2⟩ := checkRun_filled ident maxRequests windowMs (t0 + windowMs) ts
      (check store ident maxRequests windowMs t0).2 1 hfresh2 hts (by omega)
    have hfin : (checkRun store ident maxRequests windowMs (t0 :: ts)).2 ident =
        some { count := maxRequests, resetTime := t0 + windowMs } := by
      simp only [checkRun]
      rw [s2]
      congr 2
      omega
    obtain ⟨f1, f2⟩ := check_incr
      (checkRun store ident maxRequests windowMs (t0 :: ts)).2 ident maxRequests windowMs tf
      { count := maxRequests, resetTime := t0 + windowMs } hfin (by simp; omega)
    refine ⟨?_, ?_, ?_⟩
    · intro r hr
      simp only [checkRun, List.mem_cons] at hr
      rcases hr with hr | hr
      · rw [hr, hfresh1]
      · exact s1 r hr
    · rw [f1]
      simp
    · rw [f1]
      simp

theorem rateLimiter_check_spec_witness :
    emptyRL "a" = none ∧
    ((check emptyRL "a" 2 1000 0).1 =
      { success := true, remaining := (2 : Int) - 1, resetTime := 0 + 1000 } ∧
     (check emptyRL "a" 2 1000 0).2 "a" = some { count := 1, resetTime := 0 + 1000 }) :=
  ⟨by decide, (rateLimiter_check_spec emptyRL "a" 2 1000 0).1 (by decide)⟩

/-! ### In-memory TTL cache (`InMemoryCache` class) -/

structure CacheEntry (V : Type) where
  value : V
  expiresAt : Nat
deriving DecidableEq

structure CacheStats where
  hits : Nat
  misses : Nat
  size : Nat
deriving DecidableEq

/-- Lookup in a JS `Map` modelled as an insertion-ordered entry list. -/
def mapFind {V : Type} : List (String × CacheEntry V) → String → Option (CacheEntry V)
  | [], _ => none
  | (k', e) :: rest, k => if k' = k then some e else mapFind rest k

/-- `Map.set`: overwriting an existing key keeps its position, a new key
is appended at the end (JS `Map` insertion order). -/
def mapSet {V : Type} :
    List (String × CacheEntry V) → String → CacheEntry V → List (String × CacheEntry V)
  | [], k, e => [(k, e)]
  | (k', e') :: rest, k, e =>
    if k' = k then (k, e) :: rest else (k', e') :: mapSet rest k e

/-- `Map.delete`. -/
def mapDelete {V : Type} :
    List (String × CacheEntry V) → String → List (String × CacheEntry V)
  | [], _ => []
  | (k', e') :: rest, k => if k' = k then rest else (k', e') :: mapDelete rest k

def mapKeys {V : Type} (l : List (String × CacheEntry V)) : List String :=
  l.map Prod.fst

structure InMemoryCache (V : Type) where
  entries : List (String × CacheEntry V)
  stats : CacheStats
  defaultTTL : Nat
  maxSize : Nat
deriving DecidableEq

/-- Constructor: `defaultTTL` is given in seconds and converted to
milliseconds; the entry map starts empty. -/
def mkCache (V : Type) (defaultTTLSeconds maxSize : Nat) : InMemoryCache V :=
  { entries := [], stats := { hits := 0, misses := 0, size := 0 },
    defaultTTL := defaultTTLSeconds * 1000, maxSize := maxSize }

/-- Effective TTL used by `set`: `ttl || this.defaultTTL` — an absent or
zero `ttl` falls back to the (millisecond) default, and an explicit
nonzero `ttl` is used as is, in milliseconds. -/
def resolveTTL {V : Type} (c : InMemoryCache V) (ttl : Option Nat) : Nat :=
  match ttl with
  | some t => if t = 0 then c.defaultTTL else t
  | none => c.defaultTTL

/-- `InMemoryCache.get` at time `now`: a missing key is a miss; an
expired key is deleted (lazy expiry) and is a miss; otherwise a hit. -/
def InMemoryCache.get {V : Type} (c : InMemoryCache V) (key : String) (now : Nat) :
    Option V × InMemoryCache V :=
  match mapFind c.entries key with
  | none =>
    (none, { c with stats := { c.stats with misses := c.stats.misses + 1 } })
  | some entry =>
    if now > entry.expiresAt then
      let entries1 := mapDelete c.entries key
      let stats1 : CacheStats :=
        { hits := c.stats.hits, misses := c.stats.misses + 1, size := entries1.length }
      (none, { c with entries := entries1, stats := stats1 })
    else
      (some entry.value,
        { c with stats := { c.stats with hits := c.stats.hits + 1 } })

/-- The `evictOldest` scan: accumulator holds the best (key, expiresAt)
so far, starting from `Infinity` (modelled as `none`); strict `<` keeps
the earliest entry on ties. -/
def oldestStep {V : Type} (acc : Option (String × Nat)) (p : String × CacheEntry V) :
    Option (String × Nat) :=
  match acc with
  | none => some (p.1, p.2.expiresAt)
  | some (k0, t0) =>
    if p.2.expiresAt < t0 then some (p.1, p.2.expiresAt) else some (k0, t0)

def oldestPair {V : Type} (l : List (String × CacheEntry V)) : Option (String × Nat) :=
  l.foldl oldestStep none

/-- `InMemoryCache.evictOldest`: delete the entry with the smallest
`expiresAt`, if any. The deletion is guarded by `if (oldestKey)`, a JS
truthiness test that is false both for `null` (empty map) and for the
empty-string key, so a minimal entry keyed `""` is not deleted. -/
def evictOldest {V : Type} (l : List (String × CacheEntry V)) :
    List (String × CacheEntry V) :=
  match oldestPair l with
  | none => l
  | some (k, _) => if k = "" then l else mapDelete l k

/-- `InMemoryCache.set` at time `now`: evict the oldest entry first when
the cache is at capacity and the key is new, then insert. -/
def InMemoryCache.set {V : Type} (c : InMemoryCache V) (key : String) (v : V)
    (ttl : Option Nat) (now : Nat) : InMemoryCache V :=
  let expiresAt := now + resolveTTL c ttl
  let entries1 :=
    if c.entries.length ≥ c.maxSize ∧ (mapFind c.entries key).isNone then
      evictOldest c.entries
    else c.entries
  let entries2 := mapSet entries1 key { value := v, expiresAt := expiresAt }
  { c with entries := entries2, stats := { c.stats with size := entries2.length } }

lemma mapFind_mapSet_self {V : Type} (l : List (String × CacheEntry V))
    (k : String) (e : CacheEntry V) : mapFind (mapSet l k e) k = some e := by
  induction l with
  | nil => simp [mapSet, mapFind]
  | cons p rest ih =>
    by_cases h : p.1 = k
    · simp [mapSet, mapFind, h]
    · simpa [mapSet, mapFind, h] using ih

lemma mapFind_mapSet_ne {V : Type} (l : List (String × CacheEntry V))
    (k k' : String) (e : CacheEntry V) (h : k' ≠ k) :
    mapFind (mapSet l k e) k' = mapFind l k' := by
  have h2 : ¬(k = k') := fun hh => h hh.symm
  induction l with
  | nil => simp [mapSet, mapFind, h2]
  | cons p rest ih =>
    by_cases hp : p.1 = k
    · simp [mapSet, mapFind, hp, h2]
    · by_cases hp' : p.1 = k'
      · simp [mapSet, mapFind, hp, hp', h]
      · simpa [mapSet, mapFind, hp, hp'] using ih

lemma mapSet_length_of_found {V : Type} (l : List (String × CacheEntry V))
    (k : String) (e e0 : CacheEntry V) (h : mapFind l k = some e0) :
    (mapSet l k e).length = l.length := by
  induction l with
  | nil => simp [mapFind] at h
  | cons p rest ih =>
    by_cases hp : p.1 = k
    · simp [mapSet, hp]
    · simp only [mapFind, if_neg hp] at h
      simpa [mapSet, hp] using ih h

lemma mapFind_eq_none_iff {V : Type} (l : List (String × CacheEntry V)) (k : String) :
    mapFind l k = none ↔ k ∉ mapKeys l := by
  induction l with
  | nil => simp [mapFind, mapKeys]
  | cons p rest ih =>
    by_cases hp : p.1 = k
    · simp [mapFind, mapKeys, hp]
    · have hp2 : ¬(k = p.1) := fun hh => hp hh.symm
      simp [mapFind, mapKeys, hp, hp2, ih]

lemma mapSet_append_of_none {V : Type} (l : List (String × CacheEntry V))
    (k : String) (e : CacheEntry V) (h : mapFind l k = none) :
    mapSet l k e = l ++ [(k, e)] := by
  induction l with
  | nil => simp [mapSet]
  | cons p rest ih =>
    by_cases hp : p.1 = k
    · simp [mapFind, hp] at h
    · simp only [mapFind, if_neg hp] at h
      simp [mapSet, hp, ih h]

lemma mapDelete_decomp {V : Type} (pre post : List (String × CacheEntry V))
    (j : String) (ej : CacheEntry V) (h : j ∉ mapKeys pre) :
    mapDelete (pre ++ (j, ej) :: post) j = pre ++ post := by
  induction pre with
  | nil => simp [mapDelete]
  | cons p rest ih =>
    simp only [mapKeys, List.map_cons, List.mem_cons] at h
    push_neg at h
    have hp : ¬(p.1 = j) := fun hh => h.1 hh.symm
    simp only [List.cons_append, mapDelete, if_neg hp, List.append_eq]
    rw [ih (by simpa [mapKeys] using h.2)]

lemma mapDelete_sublist {V : Type} (l : List (String × CacheEntry V)) (k : String) :
    (mapDelete l k).Sublist l := by
  induction l with
  | nil => simp [mapDelete]
  | cons p rest ih =>
    by_cases hp : p.1 = k
    · simp only [mapDelete, if_pos hp]
      exact (List.sublist_cons_self p rest)
    · simp only [mapDelete, if_neg hp]
      exact ih.cons₂ p

lemma mem_mapKeys_mapSet {V : Type} (l : List (String × CacheEntry V))
    (k a : String) (e : CacheEntry V) (h : a ∈ mapKeys (mapSet l k e)) :
    a ∈ mapKeys l ∨ a = k := by
  induction l with
  | nil => simpa [mapSet, mapKeys] using h
  | cons p rest ih =>
    by_cases hp : p.1 = k
    · simp only [mapSet, if_pos hp, mapKeys, List.map_cons, List.mem_cons] at h
      rcases h with h | h
      · exact Or.inr h
      · exact Or.inl (by simp [mapKeys, h])
    · simp only [mapSet, if_neg hp, mapKeys, List.map_cons, List.mem_cons] at h
      rcases h with h | h
      · exact Or.inl (by simp [mapKeys, h])
      · rcases ih h with h' | h'
        · exact Or.inl (by simp [mapKeys] at h' ⊢; exact Or.inr h')
        · exact Or.inr h'

lemma nodup_mapKeys_mapSet {V : Type} (l : List (String × CacheEntry V))
    (k : String) (e : CacheEntry V) (h : (mapKeys l).Nodup) :
    (mapKeys (mapSet l k e)).Nodup := by
  induction l with
  | nil => simp [mapSet, mapKeys]
  | cons p rest ih =>
    simp only [mapKeys, List.map_cons, List.nodup_cons] at h
    by_cases hp : p.1 = k
    · simp only [mapSet, if_pos hp, mapKeys, List.map_cons, List.nodup_cons]
      exact ⟨by rw [← hp]; exact h.1, h.2⟩
    · simp only [mapSet, if_neg hp, mapKeys, List.map_cons, List.nodup_cons]
      refine ⟨fun hmem => ?_, ih h.2⟩
      rcases mem_mapKeys_mapSet rest k p.1 e hmem with h' | h'
      · exact h.1 h'
      · exact hp h'

lemma nodup_mapKeys_sublist {V : Type} {l l' : List (String × CacheEntry V)}
    (hs : l'.Sublist l) (h : (mapKeys l).Nodup) : (mapKeys l').Nodup :=
  ((hs.map Prod.fst).nodup h)

lemma mapFind_mapDelete_self {V : Type} (l : List (String × CacheEntry V))
    (k : String) (hnd : (mapKeys l).Nodup) :
    mapFind (mapDelete l k) k = none := by
  induction l with
  | nil => simp [mapDelete, mapFind]
  | cons p rest ih =>
    simp only [mapKeys, List.map_cons, List.nodup_cons] at hnd
    by_cases hp : p.1 = k
    · simp only [mapDelete, if_pos hp]
      rw [mapFind_eq_none_iff]
      rw [← hp]
      exact fun hmem => hnd.1 (by simpa [mapKeys] using hmem)
    · simp only [mapDelete, if_neg hp, mapFind, if_neg hp]
      exact ih hnd.2

lemma oldest_foldl_spec {V : Type} :
    ∀ (l : List (String × CacheEntry V)) (b : String × Nat),
      (l.foldl oldestStep (some b) = some b ∧
        ∀ p ∈ l, ¬(p.2.expiresAt < b.2)) ∨
      (∃ pre q post, l = pre ++ q :: post ∧
        l.foldl oldestStep (some b) = some (q.1, q.2.expiresAt) ∧
        q.2.expiresAt < b.2 ∧
        (∀ p ∈ pre, q.2.expiresAt < p.2.expiresAt) ∧
        (∀ p ∈ post, ¬(p.2.expiresAt < q.2.expiresAt))) := by
  intro l
  induction l with
  | nil => intro b; exact Or.inl ⟨rfl, by simp⟩
  | cons p rest ih =>
    intro b
    by_cases h : p.2.expiresAt < b.2
    · have hstep : (p :: rest).foldl oldestStep (some b) =
          rest.foldl oldestStep (some (p.1, p.2.expiresAt)) := by
        simp [oldestStep, h]
      rcases ih (p.1, p.2.expiresAt) with ⟨e1, e2⟩ | ⟨pre, q, post, d1, d2, d3, d4, d5⟩
      · exact Or.inr ⟨[], p, rest, by simp, by rw [hstep, e1], h, by simp,
          fun p' hp' => e2 p' hp'⟩
      · refine Or.inr ⟨p :: pre, q, post, by simp [d1], by rw [hstep, d2],
          lt_trans d3 h, ?_, d5⟩
        intro p' hp'
        rcases List.mem_cons.mp hp' with hh | hh
        · rw [hh]; exact d3
        · exact d4 p' hh
    · have hstep : (p :: rest).foldl oldestStep (some b) =
          rest.foldl oldestStep (some b) := by
        simp [oldestStep, h]
      rcases ih b with ⟨e1, e2⟩ | ⟨pre, q, post, d1, d2, d3, d4, d5⟩
      · refine Or.inl ⟨by rw [hstep, e1], ?_⟩
        intro p' hp'
        rcases List.mem_cons.mp hp' with hh | hh
        · rw [hh]; exact h
        · exact e2 p' hh
      · refine Or.inr ⟨p :: pre, q, post, by simp [d1], by rw [hstep, d2], d3, ?_, d5⟩
        intro p' hp'
        rcases List.mem_cons.mp hp' with hh | hh
        · rw [hh]; exact lt_of_lt_of_le d3 (not_lt.mp h)
        · exact d4 p' hh

lemma oldestPair_spec {V : Type} (l : List (String × CacheEntry V)) (hne : l ≠ []) :
    ∃ pre q post, l = pre ++ q :: post ∧
      oldestPair l = some (q.1, q.2.expiresAt) ∧
      (∀ p ∈ pre, q.2.expiresAt < p.2.expiresAt) ∧
      (∀ p ∈ l, q.2.expiresAt ≤ p.2.expiresAt) := by
  match l with
  | [] => exact absurd rfl hne
  | p :: rest =>
    have h0 : oldestPair (p :: rest) =
        rest.foldl oldestStep (some (p.1, p.2.expiresAt)) := by
      simp [oldestPair, oldestStep]
    rcases oldest_foldl_spec rest (p.1, p.2.expiresAt) with
      ⟨e1, e2⟩ | ⟨pre, q, post, d1, d2, d3, d4, d5⟩
    · refine ⟨[], p, rest, by simp, by rw [h0, e1], by simp, ?_⟩
      intro p' hp'
      rcases List.mem_cons.mp hp' with hh | hh
      · simp [hh]
      · exact not_lt.mp (e2 p' hh)
    · refine ⟨p :: pre, q, post, by simp [d1], by rw [h0, d2], ?_, ?_⟩
      · intro p' hp'
        rcases List.mem_cons.mp hp' with hh | hh
        · rw [hh]; exact d3
        · exact d4 p' hh
      · intro p' hp'
        rcases List.mem_cons.mp hp' with hh | hh
        · rw [hh]; exact le_of_lt d3
        · rw [d1] at hh
          rcases List.mem_append.mp hh with hh' | hh'
          · exact le_of_lt (d4 p' hh')
          · rcases List.mem_cons.mp hh' with hh'' | hh''
            · rw [hh'']
            · exact not_lt.mp (d5 p' hh'')

lemma evictOldest_sublist {V : Type} (l : List (String × CacheEntry V)) :
    (evictOldest l).Sublist l := by
  unfold evictOldest
  cases h : oldestPair l with
  | none => exact List.Sublist.refl l
  | some kt =>
    obtain ⟨k, t⟩ := kt
    show (if k = "" then l else mapDelete l k).Sublist l
    by_cases hk : k = ""
    · rw [if_pos hk]
    · rw [if_neg hk]
      exact mapDelete_sublist l k

lemma evictOldest_spec {V : Type} (l : List (String × CacheEntry V)) (hne : l ≠ [])
    (hnd : (mapKeys l).Nodup) (hkey : ∀ p ∈ l, p.1 ≠ "") :
    ∃ pre q post, l = pre ++ q :: post ∧
      evictOldest l = pre ++ post ∧
      (∀ p ∈ pre, q.2.expiresAt < p.2.expiresAt) ∧
      (∀ p ∈ l, q.2.expiresAt ≤ p.2.expiresAt) := by
  obtain ⟨pre, q, post, d1, d2, d3, d4⟩ := oldestPair_spec l hne
  refine ⟨pre, q, post, d1, ?_, d3, d4⟩
  have hkeys : mapKeys l = mapKeys pre ++ q.1 :: mapKeys post := by
    rw [d1]; simp [mapKeys]
  have hq : q.1 ∉ mapKeys pre := by
    intro hmem
    rw [hkeys] at hnd
    rcases List.nodup_append.mp hnd with ⟨-, -, hdisj⟩
    exact hdisj hmem (by simp)
  have hqmem : q ∈ l := by
    rw [d1]
    exact List.mem_append.mpr (Or.inr (List.mem_cons_self q post))
  simp only [evictOldest, d2]
  rw [if_neg (hkey q hqmem), d1]
  exact mapDelete_decomp pre post q.1 q.2 hq

lemma set_entries_nodup {V : Type} (c : InMemoryCache V) (key : String) (v : V)
    (ttl : Option Nat) (now : Nat) (hnd : (mapKeys c.entries).Nodup) :
    (mapKeys (c.set key v ttl now).entries).Nodup := by
  simp only [InMemoryCache.set]
  apply nodup_mapKeys_mapSet
  by_cases hcond : c.entries.length ≥ c.maxSize ∧ (mapFind c.entries key).isNone = true
  · rw [if_pos hcond]
    exact nodup_mapKeys_sublist (evictOldest_sublist _) hnd
  · rw [if_neg hcond]
    exact hnd

/-- C3 counterexample: `set` with an explicit `ttl` of `5` (seconds, per
the contract signature) makes the entry expire 5 milliseconds later, so a
`get` 2 seconds later — well before 5 seconds have elapsed — already
misses, refuting the claim that the value is returned before the
(seconds) TTL elapses. -/
theorem cache_ttl_seconds_cex :
    ((((mkCache Nat 300 1000).set "k" 42 (some 5) 0).get "k" 2000).1 = none) ∧
    ¬((((mkCache Nat 300 1000).set "k" 42 (some 5) 0).get "k" 2000).1 = some 42) := by
  decide

/-- C3 (amended): with the explicit `ttl` argument interpreted in
milliseconds (as the code uses it, without the seconds-to-milliseconds
conversion applied to the default TTL), a `get` at most `ttl`
milliseconds after `set` returns the value and increments `hits`, and a
`get` strictly later returns absent, increments `misses`, and removes
the entry from the store (lazy expiry). -/
theorem cache_ttl_roundtrip (V : Type) (c : InMemoryCache V) (key : String) (v : V)
    (ttl now d : Nat) (hnd : (mapKeys c.entries).Nodup) (httl : 0 < ttl) :
    (d ≤ ttl →
      ((c.set key v (some ttl) now).get key (now + d)).1 = some v ∧
      ((c.set key v (some ttl) now).get key (now + d)).2.stats.hits =
        (c.set key v (some ttl) now).stats.hits + 1) ∧
    (ttl < d →
      ((c.set key v (some ttl) now).get key (now + d)).1 = none ∧
      ((c.set key v (some ttl) now).get key (now + d)).2.stats.misses =
        (c.set key v (some ttl) now).stats.misses + 1 ∧
      mapFind ((c.set key v (some ttl) now).get key (now + d)).2.entries key = none) := by
  have hres : resolveTTL c (some ttl) = ttl := by
    simp only [resolveTTL]
    rw [if_neg (by omega)]
  have hfind : mapFind (c.set key v (some ttl) now).entries key =
      some { value := v, expiresAt := now + ttl } := by
    simp only [InMemoryCache.set, hres]
    exact mapFind_mapSet_self _ key _
  constructor
  · intro hd
    have hnotexp : ¬(now + d > now + ttl) := by omega
    simp only [InMemoryCache.get, hfind, if_neg hnotexp]
    exact ⟨trivial, trivial⟩
  · intro hd
    have hexp : now + d > now + ttl := by omega
    have hnd1 : (mapKeys (c.set key v (some ttl) now).entries).Nodup :=
      set_entries_nodup c key v (some ttl) now hnd
    simp only [InMemoryCache.get, hfind, if_pos hexp]
    exact ⟨trivial, trivial, mapFind_mapDelete_self _ key hnd1⟩

theorem cache_ttl_roundtrip_witness :
    ((mapKeys (mkCache Nat 300 10).entries).Nodup ∧ 0 < 7 ∧ 3 ≤ 7) ∧
    ((((mkCache Nat 300 10).set "k" 5 (some 7) 100).get "k" (100 + 3)).1 = some 5 ∧
      (((mkCache Nat 300 10).set "k" 5 (some 7) 100).get "k" (100 + 3)).2.stats.hits =
        ((mkCache Nat 300 10).set "k" 5 (some 7) 100).stats.hits + 1) :=
  ⟨⟨by decide, by decide, by decide⟩,
    (cache_ttl_roundtrip Nat (mkCache Nat 300 10) "k" 5 7 100 3
      (by decide) (by decide)).1 (by decide)⟩

/-- C4 (amended): eviction. On a cache whose entry list has distinct,
non-empty keys, a `set` of a new key while the cache holds
`maxSize > 0` entries evicts exactly the first entry attaining the
smallest `expiresAt` (ties broken by insertion order) and appends the
new entry, leaving the size at `maxSize`; a `set` on an existing key
never evicts: it keeps the length and every other key's entry. The
non-empty-key proviso is forced by the `if (oldestKey)` truthiness
guard, which skips the deletion when the minimal-expiry entry's key is
the empty string. -/
theorem cache_eviction (V : Type) (c : InMemoryCache V) (key : String) (v : V)
    (ttl : Option Nat) (now : Nat) (hnd : (mapKeys c.entries).Nodup) :
    (mapFind c.entries key = none → c.entries.length = c.maxSize → 0 < c.maxSize →
      (∀ p ∈ c.entries, p.1 ≠ "") →
      (c.set key v ttl now).entries.length = c.maxSize ∧
      ∃ pre q post e,
        c.entries = pre ++ q :: post ∧
        (∀ p ∈ pre, q.2.expiresAt < p.2.expiresAt) ∧
        (∀ p ∈ c.entries, q.2.expiresAt ≤ p.2.expiresAt) ∧
        (c.set key v ttl now).entries = (pre ++ post) ++ [(key, e)]) ∧
    (∀ e0 : CacheEntry V, mapFind c.entries key = some e0 →
      (c.set key v ttl now).entries.length = c.entries.length ∧
      ∀ k' : String, k' ≠ key →
        mapFind (c.set key v ttl now).entries k' = mapFind c.entries k') := by
  constructor
  · intro hnone hfull hpos hkey
    have hcond : c.entries.length ≥ c.maxSize ∧ (mapFind c.entries key).isNone = true :=
      ⟨by omega, by rw [hnone]; rfl⟩
    have hne : c.entries ≠ [] := by
      intro h
      rw [h] at hfull
      simp at hfull
      omega
    obtain ⟨pre, q, post, d1, d2, d3, d4⟩ := evictOldest_spec c.entries hne hnd hkey
    have hkey1 : mapFind (pre ++ post) key = none := by
      rw [mapFind_eq_none_iff]
      intro hmem
      apply (mapFind_eq_none_iff c.entries key).mp hnone
      rw [d1]
      simp only [mapKeys, List.map_append, List.map_cons, List.mem_append,
        List.mem_cons] at hmem ⊢
      tauto
    have hset : (c.set key v ttl now).entries =
        (pre ++ post) ++ [(key, { value := v, expiresAt := now + resolveTTL c ttl })] := by
      simp only [InMemoryCache.set, if_pos hcond, d2]
      exact mapSet_append_of_none _ key _ hkey1
    have hlen1 : c.entries.length = pre.length + post.length + 1 := by
      rw [d1]
      simp only [List.length_append, List.length_cons]
      omega
    constructor
    · rw [hset]
      simp only [List.length_append, List.length_cons, List.length_nil]
      omega
    · exact ⟨pre, q, post, _, d1, d3, d4, hset⟩
  · intro e0 hsome
    have hcond : ¬(c.entries.length ≥ c.maxSize ∧ (mapFind c.entries key).isNone = true) := by
      rintro ⟨-, hh⟩
      rw [hsome] at hh
      simp at hh
    have hset : (c.set key v ttl now).entries =
        mapSet c.entries key { value := v, expiresAt := now + resolveTTL c ttl } := by
      simp only [InMemoryCache.set, if_neg hcond]
    exact ⟨by rw [hset]; exact mapSet_length_of_found _ _ _ e0 hsome,
      fun k' hk' => by rw [hset]; exact mapFind_mapSet_ne _ _ _ _ hk'⟩

/-- The spec's eviction scenario: TTL 5 seconds, `maxSize` 3, keys
`A`, `B`, `C` inserted in order at the same instant (equal TTLs). -/
def cacheABC : InMemoryCache Nat :=
  (((mkCache Nat 5 3).set "A" 1 none 0).set "B" 2 none 0).set "C" 3 none 0

theorem cache_eviction_witness :
    ((mapKeys cacheABC.entries).Nodup ∧
      mapFind cacheABC.entries "D" = none ∧
      cacheABC.entries.length = cacheABC.maxSize ∧ 0 < cacheABC.maxSize ∧
      (∀ p ∈ cacheABC.entries, p.1 ≠ "")) ∧
    ((cacheABC.set "D" 4 none 0).entries.length = cacheABC.maxSize ∧
      ∃ pre q post e,
        cacheABC.entries = pre ++ q :: post ∧
        (∀ p ∈ pre, q.2.expiresAt < p.2.expiresAt) ∧
        (∀ p ∈ cacheABC.entries, q.2.expiresAt ≤ p.2.expiresAt) ∧
        (cacheABC.set "D" 4 none 0).entries = (pre ++ post) ++ [("D", e)]) ∧
    ((cacheABC.set "D" 4 none 0).get "A" 0).1 = none ∧
    mapFind (cacheABC.set "D" 4 none 0).entries "A" = none :=
  ⟨⟨by decide, by decide, by decide, by decide, by decide⟩,
    (cache_eviction Nat cacheABC "D" 4 none 0 (by decide)).1
      (by decide) (by decide) (by decide) (by decide),
    by decide, by decide⟩

/-- A reachable cache at capacity 3 whose minimal-`expiresAt` entry is
keyed by the empty string (inserted first, so it has the strictly
smallest expiry). -/
def cacheEmptyKey : InMemoryCache Nat :=
  (((mkCache Nat 5 3).set "" 1 none 0).set "b" 2 none 1).set "c" 3 none 2

/-- C4 counterexample: when the minimal-expiry entry's key is the empty
string, the `if (oldestKey)` truthiness guard skips the deletion, so a
`set` of a new key on the full cache evicts nothing: the size grows to
`maxSize + 1` and the empty-string entry is still present, refuting the
claim that exactly one entry is evicted and the size stays at
`maxSize`. -/
theorem cache_eviction_empty_key_cex :
    mapFind cacheEmptyKey.entries "d" = none ∧
    cacheEmptyKey.entries.length = cacheEmptyKey.maxSize ∧
    (cacheEmptyKey.set "d" 4 none 3).entries.length = cacheEmptyKey.maxSize + 1 ∧
    ¬((cacheEmptyKey.set "d" 4 none 3).entries.length = cacheEmptyKey.maxSize) ∧
    mapFind (cacheEmptyKey.set "d" 4 none 3).entries "" =
      some { value := 1, expiresAt := 0 + 5000 } := by
  decide

/-! ### Account lockout tracker (`account-lockout` module) -/

structure LockoutConfig where
  maxAttempts : Nat
  lockoutDuration : Nat
  incrementDuration : Nat
deriving DecidableEq

/-- `ACCOUNT_LOCKOUT_CONFIG`: 5 attempts, 30-minute base lockout,
5-minute increment, in milliseconds. -/
def ACCOUNT_LOCKOUT_CONFIG : LockoutConfig :=
  { maxAttempts := 5
    lockoutDuration := 30 * 60 * 1000
    incrementDuration := 5 * 60 * 1000 }

/-- Per-account persisted state (`failedLoginAttempts`, `lockoutUntil`);
`none` at the outer level models a non-existent account row. -/
structure UserLockState where
  failedLoginAttempts : Nat
  lockoutUntil : Option Nat
deriving DecidableEq

structure LockoutStatus where
  isLocked : Bool
  remainingAttempts : Nat
  lockoutUntil : Option Nat
  lockoutDuration : Nat
deriving DecidableEq

/-- `checkAccountLockout` at time `now`; the second component is the
stored state after the call. When the stored lockout has elapsed the
stored state is reset, but the returned `remainingAttempts` is computed
from the originally fetched `failedLoginAttempts`. -/
def checkAccountLockout (u : Option UserLockState) (now : Nat) :
    LockoutStatus × Option UserLockState :=
  match u with
  | none =>
    ({ isLocked := false, remainingAttempts := ACCOUNT_LOCKOUT_CONFIG.maxAttempts,
       lockoutUntil := none, lockoutDuration := 0 }, none)
  | some user =>
    match user.lockoutUntil with
    | some lu =>
      if lu > now then
        ({ isLocked := true, remainingAttempts := 0, lockoutUntil := some lu,
           lockoutDuration := ACCOUNT_LOCKOUT_CONFIG.lockoutDuration }, u)
      else
        ({ isLocked := false,
           remainingAttempts :=
             ACCOUNT_LOCKOUT_CONFIG.maxAttempts - user.failedLoginAttempts,
           lockoutUntil := none, lockoutDuration := 0 },
          some { failedLoginAttempts := 0, lockoutUntil := none })
    | none =>
      ({ isLocked := false,
         remainingAttempts :=
           ACCOUNT_LOCKOUT_CONFIG.maxAttempts - user.failedLoginAttempts,
         lockoutUntil := none, lockoutDuration := 0 }, u)

/-- `recordFailedLoginAttempt` at time `now`: a non-existent account gets
a constant status and no write; an existing account gets its attempt
count incremented and, at or above `maxAttempts`, is locked for
`lockoutDuration + excess * incrementDuration` milliseconds. -/
def recordFailedLoginAttempt (u : Option UserLockState) (now : Nat) :
    LockoutStatus × Option UserLockState :=
  match u with
  | none =>
    ({ isLocked := false,
       remainingAttempts := ACCOUNT_LOCKOUT_CONFIG.maxAttempts - 1,
       lockoutUntil := none, lockoutDuration := 0 }, none)
  | some user =>
    let currentAttempts := user.failedLoginAttempts + 1
    let lockDur :=
      if ACCOUNT_LOCKOUT_CONFIG.maxAttempts ≤ currentAttempts then
        ACCOUNT_LOCKOUT_CONFIG.lockoutDuration +
          (currentAttempts - ACCOUNT_LOCKOUT_CONFIG.maxAttempts) *
            ACCOUNT_LOCKOUT_CONFIG.incrementDuration
      else 0
    let lockUntil : Option Nat :=
      if ACCOUNT_LOCKOUT_CONFIG.maxAttempts ≤ currentAttempts then
        some (now + lockDur)
      else none
    ({ isLocked := decide (ACCOUNT_LOCKOUT_CONFIG.maxAttempts ≤ currentAttempts),
       remainingAttempts := ACCOUNT_LOCKOUT_CONFIG.maxAttempts - currentAttempts,
       lockoutUntil := lockUntil, lockoutDuration := lockDur },
      some { failedLoginAttempts := currentAttempts, lockoutUntil := lockUntil })

/-- `resetFailedLoginAttempts` (recordSuccess): reset the stored state of
an existing account to zero attempts and no lockout. -/
def resetFailedLoginAttempts (u : Option UserLockState) : Option UserLockState :=
  u.map (fun _ => { failedLoginAttempts := 0, lockoutUntil := none })

/-- Folding several recorded failures through the stored state. -/
def recordFailures (u : Option UserLockState) (ts : List Nat) : Option UserLockState :=
  ts.foldl (fun s t => (recordFailedLoginAttempt s t).2) u

/-- C5: escalating backoff. When a recorded failure brings an existing
account to `attempts = a + 1 ≥ maxAttempts`, the result is locked with
`remainingAttempts = 0` and
`lockoutUntil = now + lockoutDuration + (attempts - maxAttempts) * incrementDuration`,
the stored state records that count and lockout; one further recorded
failure increases the returned duration by exactly `incrementDuration`;
and a recorded success resets the stored state to zero attempts and no
lockout. -/
theorem accountLockout_backoff (a : Nat) (lu : Option Nat) (now t2 : Nat)
    (h : ACCOUNT_LOCKOUT_CONFIG.maxAttempts ≤ a + 1) :
    (recordFailedLoginAttempt (some ⟨a, lu⟩) now).1 =
      { isLocked := true, remainingAttempts := 0,
        lockoutUntil := some (now + (ACCOUNT_LOCKOUT_CONFIG.lockoutDuration +
          (a + 1 - ACCOUNT_LOCKOUT_CONFIG.maxAttempts) *
            ACCOUNT_LOCKOUT_CONFIG.incrementDuration)),
        lockoutDuration := ACCOUNT_LOCKOUT_CONFIG.lockoutDuration +
          (a + 1 - ACCOUNT_LOCKOUT_CONFIG.maxAttempts) *
            ACCOUNT_LOCKOUT_CONFIG.incrementDuration } ∧
    (recordFailedLoginAttempt (some ⟨a, lu⟩) now).2 =
      some ⟨a + 1, some (now + (ACCOUNT_LOCKOUT_CONFIG.lockoutDuration +
        (a + 1 - ACCOUNT_LOCKOUT_CONFIG.maxAttempts) *
          ACCOUNT_LOCKOUT_CONFIG.incrementDuration))⟩ ∧
    (recordFailedLoginAttempt
        ((recordFailedLoginAttempt (some ⟨a, lu⟩) now).2) t2).1.lockoutDuration =
      (recordFailedLoginAttempt (some ⟨a, lu⟩) now).1.lockoutDuration +
        ACCOUNT_LOCKOUT_CONFIG.incrementDuration ∧
    (∀ s : UserLockState, resetFailedLoginAttempts (some s) =
      some { failedLoginAttempts := 0, lockoutUntil := none }) := by
  have h5 : (5 : Nat) ≤ a + 1 := by simpa [ACCOUNT_LOCKOUT_CONFIG] using h
  have h6 : (5 : Nat) ≤ a + 1 + 1 := by omega
  refine ⟨?_, ?_, ?_, fun s => rfl⟩
  · simp [recordFailedLoginAttempt, ACCOUNT_LOCKOUT_CONFIG, h5]
  · simp [recordFailedLoginAttempt, ACCOUNT_LOCKOUT_CONFIG, h5]
  · simp [recordFailedLoginAttempt, ACCOUNT_LOCKOUT_CONFIG, h5, h6]
    omega

theorem accountLockout_backoff_witness :
    ACCOUNT_LOCKOUT_CONFIG.maxAttempts ≤ 4 + 1 ∧
    ((recordFailedLoginAttempt (some ⟨4, none⟩) 1000).1 =
      { isLocked := true, remainingAttempts := 0,
        lockoutUntil := some (1000 + (ACCOUNT_LOCKOUT_CONFIG.lockoutDuration +
          (4 + 1 - ACCOUNT_LOCKOUT_CONFIG.maxAttempts) *
            ACCOUNT_LOCKOUT_CONFIG.incrementDuration)),
        lockoutDuration := ACCOUNT_LOCKOUT_CONFIG.lockoutDuration +
          (4 + 1 - ACCOUNT_LOCKOUT_CONFIG.maxAttempts) *
            ACCOUNT_LOCKOUT_CONFIG.incrementDuration } ∧
     (recordFailedLoginAttempt (some ⟨4, none⟩) 1000).2 =
      some ⟨4 + 1, some (1000 + (ACCOUNT_LOCKOUT_CONFIG.lockoutDuration +
        (4 + 1 - ACCOUNT_LOCKOUT_CONFIG.maxAttempts) *
          ACCOUNT_LOCKOUT_CONFIG.incrementDuration))⟩ ∧
     (recordFailedLoginAttempt
        ((recordFailedLoginAttempt (some ⟨4, none⟩) 1000).2) 2000).1.lockoutDuration =
      (recordFailedLoginAttempt (some ⟨4, none⟩) 1000).1.lockoutDuration +
        ACCOUNT_LOCKOUT_CONFIG.incrementDuration ∧
     (∀ s : UserLockState, resetFailedLoginAttempts (some s) =
      some { failedLoginAttempts := 0, lockoutUntil := none })) :=
  ⟨by decide, accountLockout_backoff 4 none 1000 2000 (by decide)⟩

/-- C6 counterexample: an account stored with 5 failed attempts and an
elapsed lockout is lazily reset by `checkStatus`, but the returned
`remainingAttempts` is 0 — computed from the pre-reset attempt count —
not `maxAttempts` as the claim states. -/
theorem lockout_lazyReset_cex :
    (checkAccountLockout (some ⟨5, some 100⟩) 200).2 =
      some { failedLoginAttempts := 0, lockoutUntil := none } ∧
    (checkAccountLockout (some ⟨5, some 100⟩) 200).1.isLocked = false ∧
    (checkAccountLockout (some ⟨5, some 100⟩) 200).1.remainingAttempts = 0 ∧
    ¬((checkAccountLockout (some ⟨5, some 100⟩) 200).1.remainingAttempts =
      ACCOUNT_LOCKOUT_CONFIG.maxAttempts) := by
  decide

/-- C6 (amended): a `checkStatus` on an account whose stored lockout has
elapsed resets the stored state to zero attempts and no lockout and
answers not-locked, but its `remainingAttempts` is
`maxAttempts - (pre-reset failedLoginAttempts)` (clamped at 0), computed
from the state read before the reset. -/
theorem lockout_lazyReset (a lu now : Nat) (h : lu ≤ now) :
    (checkAccountLockout (some ⟨a, some lu⟩) now).1 =
      { isLocked := false,
        remainingAttempts := ACCOUNT_LOCKOUT_CONFIG.maxAttempts - a,
        lockoutUntil := none, lockoutDuration := 0 } ∧
    (checkAccountLockout (some ⟨a, some lu⟩) now).2 =
      some { failedLoginAttempts := 0, lockoutUntil := none } := by
  have h2 : ¬(lu > now) := by omega
  simp [checkAccountLockout, h2]

theorem lockout_lazyReset_witness :
    (100 : Nat) ≤ 200 ∧
    ((checkAccountLockout (some ⟨5, some 100⟩) 200).1 =
      { isLocked := false,
        remainingAttempts := ACCOUNT_LOCKOUT_CONFIG.maxAttempts - 5,
        lockoutUntil := none, lockoutDuration := 0 } ∧
     (checkAccountLockout (some ⟨5, some 100⟩) 200).2 =
      some { failedLoginAttempts := 0, lockoutUntil := none }) :=
  ⟨by decide, lockout_lazyReset 5 100 200 (by decide)⟩

/-- C7: the anti-enumeration claim fails on the code. After one recorded
failure against each, a further `recordFailure` returns
`remainingAttempts = 4` for a non-existent account but `3` for an
existing account with the same failure history, so the two are
distinguishable from the returned status alone. -/
theorem lockout_enumeration_divergence :
    (recordFailedLoginAttempt (recordFailures none [10]) 20).1.remainingAttempts = 4 ∧
    (recordFailedLoginAttempt
      (recordFailures (some ⟨0, none⟩) [10]) 20).1.remainingAttempts = 3 ∧
    ¬((recordFailedLoginAttempt (recordFailures none [10]) 20).1 =
      (recordFailedLoginAttempt (recordFailures (some ⟨0, none⟩) [10]) 20).1) := by
  decide

/-- C10: `recordFailure` on a non-existent account writes nothing — after
any number of recorded failures the stored state is still absent — and
every such call returns the constant status `isLocked = false`,
`remainingAttempts = maxAttempts - 1`, `lockoutUntil = null`. -/
theorem recordFailure_nonexistent_frame (ts : List Nat) (t : Nat) :
    recordFailures none ts = none ∧
    (recordFailedLoginAttempt (recordFailures none ts) t).1 =
      { isLocked := false,
        remainingAttempts := ACCOUNT_LOCKOUT_CONFIG.maxAttempts - 1,
        lockoutUntil := none, lockoutDuration := 0 } ∧
    (recordFailedLoginAttempt (recordFailures none ts) t).2 = none := by
  have hnone : recordFailures none ts = none := by
    induction ts with
    | nil => rfl
    | cons s ss ih => simpa [recordFailures, recordFailedLoginAttempt] using ih
  rw [hnone]
  exact ⟨rfl, rfl, rfl⟩

/-! ### Graceful shutdown handler loop (`ShutdownManager`) -/

structure ShutdownHandler where
  name : String
  timeout : Option Nat
deriving DecidableEq

/-- Outcome of racing one handler against its timeout: it resolved, threw
an error, or the timeout fired first. -/
inductive HandlerOutcome where
  | ok
  | errored (msg : String)
  | timedOut
deriving DecidableEq

def defaultTimeout : Nat := 30000

/-- `handler.timeout || this.defaultTimeout`. -/
def effectiveTimeout (h : ShutdownHandler) : Nat :=
  match h.timeout with
  | some t => if t = 0 then defaultTimeout else t
  | none => defaultTimeout

structure HandlerResult where
  name : String
  success : Bool
  error : Option String
deriving DecidableEq

/-- One loop iteration of `executeHandlers`: the `try`/`catch` records a
success, a thrown error, or the raced `Timeout` rejection. -/
def runHandler (p : ShutdownHandler × HandlerOutcome) : HandlerResult :=
  match p.2 with
  | .ok => { name := p.1.name, success := true, error := none }
  | .errored m => { name := p.1.name, success := false, error := some m }
  | .timedOut => { name := p.1.name, success := false, error := some "Timeout" }

/-- The sequential handler loop: every registered handler is processed in
order; a caught failure does not stop the recursion. -/
def executeHandlers : List (ShutdownHandler × HandlerOutcome) → List HandlerResult
  | [] => []
  | p :: rest => runHandler p :: executeHandlers rest

lemma executeHandlers_eq_map (l : List (ShutdownHandler × HandlerOutcome)) :
    executeHandlers l = l.map runHandler := by
  induction l with
  | nil => rfl
  | cons p rest ih => simp [executeHandlers, ih]

/-- C9: the shutdown coordinator produces exactly one result per
registered handler, in registration order, regardless of the outcomes of
earlier handlers; a success, a thrown error, and a timeout are each
recorded in that handler's own result entry; and a handler without its
own `timeout` is raced against the 30000 ms default. -/
theorem shutdown_handlers_sequential (hs : List (ShutdownHandler × HandlerOutcome)) :
    (executeHandlers hs).length = hs.length ∧
    (∀ i : Nat, (executeHandlers hs)[i]? = (hs[i]?).map runHandler) ∧
    (∀ h : ShutdownHandler,
      runHandler (h, .ok) = { name := h.name, success := true, error := none } ∧
      (∀ m, runHandler (h, .errored m) =
        { name := h.name, success := false, error := some m }) ∧
      runHandler (h, .timedOut) =
        { name := h.name, success := false, error := some "Timeout" }) ∧
    (∀ nm : String, effectiveTimeout { name := nm, timeout := none } = 30000) := by
  refine ⟨?_, ?_, fun h => ⟨rfl, fun m => rfl, rfl⟩, fun nm => rfl⟩
  · rw [executeHandlers_eq_map]
    simp
  · intro i
    rw [executeHandlers_eq_map]
    simp

end Game
